import Mathlib

/-!
# The `pulumi logs` command: since-time resolution and the tail loop

A shallow embedding of `cmd/logs.go`: `parseSince` (lines 106-120) and the function
run by `newLogsCmd` (lines 35-86), followed by the properties proved of them.

Conventions of the embedding.

* A Go result pair `(value, error)` is an `Except GoError value`.
* A `*time.Time` or `*operations.ResourceFilter` is an `Option`: `none` is the nil pointer.
* `int64` values are integers, wrapped by `wrap64` where the code does arithmetic on them.
* The external collaborators (the moby timestamp library, `requireStack`, the stack's
  `GetLogs`) are arguments of the embedded functions.
* The loop of lines 63-85 has no exit in follow mode other than a failed query, so it is
  embedded with a bound on the number of iterations; `Outcome.running` says that the bound
  was reached while the loop was still going (it sits in `time.Sleep`).
-/

namespace Logs

/-! ## Errors -/

/-- A Go `error` value: either one produced by a collaborator outside this file, known by
its text, or the result of `errors.Wrapf(cause, msg)`. -/
inductive GoError where
  | external (text : String)
  | wrapf (cause : GoError) (msg : String)
deriving DecidableEq, Repr

namespace GoError

/-- The text `Error()` gives: `errors.Wrapf` puts its message before the text of the cause. -/
def Error : GoError → String
  | external text => text
  | wrapf cause msg => msg ++ ": " ++ cause.Error

end GoError

/-- Whether `pat` starts `text`. -/
def startsWithChars : List Char → List Char → Bool
  | [], _ => true
  | _ :: _, [] => false
  | p :: ps, t :: ts => p == t && startsWithChars ps ts

/-- Whether `pat` occurs somewhere in `text` as a contiguous run of characters. -/
def occursIn (pat : List Char) : List Char → Bool
  | [] => startsWithChars pat []
  | t :: ts => startsWithChars pat (t :: ts) || occursIn pat ts

/-- Whether the text of an error carries the string `s`. -/
def GoError.mentions (e : GoError) (s : String) : Bool :=
  occursIn s.toList e.Error.toList

/-! ## Time -/

/-- The value of an `int64` computation whose mathematical result is `x`. -/
def wrap64 (x : Int) : Int :=
  (x + 2 ^ 63) % 2 ^ 64 - 2 ^ 63

/-- A `time.Time`, as the instant it denotes: seconds since the Unix epoch and the
nanoseconds within that second. -/
structure Time where
  sec : Int
  nsec : Int
deriving DecidableEq, Repr

/-- Go's `time.Unix(sec, nsec)`: a nanosecond count outside `[0, 1e9)` is folded into the
seconds (`/` on `int64` truncates toward zero). -/
def timeUnix (sec nsec : Int) : Time :=
  if nsec < 0 ∨ nsec ≥ 1000000000 then
    let n := Int.tdiv nsec 1000000000
    let sec1 := wrap64 (sec + n)
    let nsec1 := wrap64 (nsec - wrap64 (n * 1000000000))
    if nsec1 < 0 then ⟨wrap64 (sec1 - 1), wrap64 (nsec1 + 1000000000)⟩
    else ⟨sec1, nsec1⟩
  else ⟨sec, nsec⟩

/-- The two functions of `github.com/moby/moby/api/types/time` that `parseSince` calls.
`GetTimestamp value reference` turns a duration or timestamp expression into a timestamp
string; `ParseTimestamps value def` splits such a string into seconds and nanoseconds. -/
structure Mobytime where
  GetTimestamp : String → Time → Except GoError String
  ParseTimestamps : String → Int → Except GoError (Int × Int)

/-- Lines 106-120. The returned pointer is `none` for `nil`. -/
def parseSince (mobytime : Mobytime) (since : String) (reference : Time) :
    Except GoError (Option Time) :=
  match mobytime.GetTimestamp since reference with
  | .error err => .error err
  | .ok startTimestamp =>
    match mobytime.ParseTimestamps startTimestamp 0 with
    | .error err => .error err
    | .ok (startTimeSec, startTimeNs) =>
      if startTimeSec = 0 ∧ startTimeNs = 0 then .ok none
      else .ok (some (timeUnix startTimeSec startTimeNs))

/-! ## Log entries, queries and the log source -/

/-- Modelled from the spec: the declaration of `operations.LogEntry` is not in this file.
The spec (section 3) gives it three attributes, `ID`, `Timestamp` (milliseconds since the
epoch, an integer) and `Message`; lines 74-75 read exactly these three fields. Go compares
struct values field by field, which is the derived equality. -/
structure LogEntry where
  ID : String
  Timestamp : Int
  Message : String
deriving DecidableEq, Repr

/-- The `operations.LogQuery` literal built at lines 64-67. -/
structure LogQuery where
  StartTime : Option Time
  ResourceFilter : Option String
deriving DecidableEq, Repr

/-- The stack's `GetLogs`, as seen by one invocation: `s k query` is what the call number
`k` (counting from 0) returns when it is given `query`. -/
abbrev LogSource := Nat → LogQuery → Except GoError (List LogEntry)

/-! ## The tail loop -/

/-- What one invocation has done so far. `shown` holds the keys of the map `shown` of
line 62 (every value stored in it is `true`), most recently added first; `printed` holds
the entries for which line 75 printed a line, oldest first; `queries` holds the queries
passed to `GetLogs`, oldest first. -/
structure TailState where
  shown : List LogEntry
  printed : List LogEntry
  queries : List LogQuery
deriving DecidableEq, Repr

/-- The state at line 62: an empty map, nothing printed, no query made. -/
def TailState.init : TailState := ⟨[], [], []⟩

/-- Lines 73-77, the body of the range loop for one entry. -/
def showEntry (st : TailState) (logEntry : LogEntry) : TailState :=
  if logEntry ∈ st.shown then st
  else ⟨logEntry :: st.shown, st.printed ++ [logEntry], st.queries⟩

/-- Lines 72-78, the range loop over one batch. -/
def showBatch (st : TailState) (logs : List LogEntry) : TailState :=
  logs.foldl showEntry st

/-- How far the run function got. -/
inductive Outcome where
  | running
  | returned (err : Option GoError)
  | panicked
deriving DecidableEq, Repr

/-- Lines 63-85, bounded to `fuel` iterations. The call number of a query is the number
of queries made before it. -/
def tailLoop (follow : Bool) (s : LogSource) (query : LogQuery) :
    Nat → TailState → Outcome × TailState
  | 0, st => (Outcome.running, st)
  | fuel + 1, st =>
    let asked : TailState := ⟨st.shown, st.printed, st.queries ++ [query]⟩
    match s st.queries.length query with
    | .error err => (Outcome.returned (some (GoError.wrapf err "failed to get logs")), asked)
    | .ok logs =>
      let st1 := showBatch asked logs
      if !follow then (Outcome.returned none, st1)
      else tailLoop follow s query fuel st1

/-- Lines 36-86, the function handed to `cmdutil.RunFunc`. `stack` is what `requireStack`
returned. `startTime.Format` at line 53 is a method with a value receiver called through
the pointer `startTime`, so it reads through the pointer: on nil the run panics there,
before the loop. -/
def runLogs (mobytime : Mobytime) (stack : Except GoError LogSource) (since : String)
    (now : Time) (resource : String) (follow : Bool) (fuel : Nat) : Outcome × TailState :=
  match stack with
  | .error err => (Outcome.returned (some err), TailState.init)
  | .ok s =>
    match parseSince mobytime since now with
    | .error err =>
      (Outcome.returned (some (GoError.wrapf err
        "failed to parse argument to '--since' as duration or timestamp")), TailState.init)
    | .ok startTime =>
      let resourceFilter : Option String := if resource ≠ "" then some resource else none
      match startTime with
      | none => (Outcome.panicked, TailState.init)
      | some _ => tailLoop follow s ⟨startTime, resourceFilter⟩ fuel TailState.init

/-! ## Reference definitions and sample collaborators -/

/-- Follows the spec's words ("every occurrence of a value other than its first removed"):
the head is kept and its later occurrences are dropped from what the rest keeps. -/
def firstOccurrences : List LogEntry → List LogEntry
  | [] => []
  | e :: rest => e :: (firstOccurrences rest).filter (fun x => decide (x ≠ e))

/-- Go's `strconv.ParseUint(s, 10, 64)` from the value `acc` read so far: the digits are
read left to right, a character that is no digit is a syntax error, and a value that leaves
`uint64` is a range error, reported where it happens. The error is given by its text. -/
def parseUintFrom (acc : Nat) : List Char → Except String Nat
  | [] => .ok acc
  | c :: cs =>
    if c.isDigit then
      if acc * 10 + (c.toNat - 48) < 2 ^ 64 then parseUintFrom (acc * 10 + (c.toNat - 48)) cs
      else .error "value out of range"
    else .error "invalid syntax"

/-- Go's `strconv.ParseInt(s, 10, 64)` on the characters of `s`: an optional sign, then at
least one digit, and the value has to fit `int64`. -/
def parseInt64 (cs : List Char) : Except String Int :=
  let neg : Bool := cs.head? == some '-'
  let digits := if cs.head? = some '-' ∨ cs.head? = some '+' then cs.tail else cs
  if digits = [] then .error "invalid syntax"
  else
    match parseUintFrom 0 digits with
    | .error reason => .error reason
    | .ok n =>
      if neg then (if n ≤ 2 ^ 63 then .ok (-(n : Int)) else .error "value out of range")
      else if n < 2 ^ 63 then .ok (n : Int) else .error "value out of range"

/-- The error `strconv.ParseInt` returns for the string `cs`, a `*strconv.NumError`; the
string is quoted as it stands, which is what Go does for printable characters other than
the quote and the backslash. -/
def numError (cs : List Char) (reason : String) : GoError :=
  GoError.external ("strconv.ParseInt: parsing \"" ++ String.mk cs ++ "\": " ++ reason)

/-- The seconds of a duration written as decimal digits followed by one of the units `s`,
`m`, `h` (such as `5s`, `2m`, `3h`), when `time.ParseDuration` accepts it, that is when it
does not exceed the `int64` count of nanoseconds; `none` for any other string. -/
def simpleDuration (cs : List Char) : Option Nat :=
  let unit : Nat :=
    if cs.getLast? = some 's' then 1
    else if cs.getLast? = some 'm' then 60
    else if cs.getLast? = some 'h' then 3600
    else 0
  if unit = 0 ∨ cs.dropLast = [] ∨ ¬ (cs.dropLast.all Char.isDigit) then none
  else
    match parseUintFrom 0 cs.dropLast with
    | .error _ => none
    | .ok n => if n * unit * 1000000000 < 2 ^ 63 then some (n * unit) else none

/-- A stand-in for the moby timestamp library, for the closed examples below. It follows
the library of the time of this code on these inputs:

* `GetTimestamp`: a duration in the form read by `simpleDuration` gives the decimal Unix
  seconds of the reference instant less the duration; `"not-a-duration"` is rejected with
  the error of `time.Parse`; a value without `-` that is no duration (a Unix timestamp such
  as `0` or `1500000000`, the empty string, `1.x`) is passed through unchanged.
* `ParseTimestamps`: the empty string gives the default; otherwise the value is cut at its
  first `.`, both parts are read by `strconv.ParseInt`, and a fraction of at most nine
  characters is scaled to nanoseconds.

Outside these inputs it is not the library: durations in another form (`1h30m`, `10ms`) are
passed through as if they were no duration, values with a `-` other than
`"not-a-duration"` (dates among them) are rejected with a text of this file, and a fraction
of more than nine characters is scaled by integer division where Go uses floating point.
The general theorems take the library as an argument and do not depend on this. -/
def sampleMobytime : Mobytime where
  GetTimestamp value reference :=
    match simpleDuration value.toList with
    | some secs => .ok (toString (reference.sec - (secs : Int)))
    | none =>
      if value = "not-a-duration" then
        .error (GoError.external
          "parsing time \"not-a-duration\" as \"2006-01-02\": cannot parse \"not-a-duration\" as \"2006\"")
      else if '-' ∈ value.toList then
        .error (GoError.external "dated value outside the inputs of this stand-in")
      else .ok value
  ParseTimestamps value defaultSec :=
    if value = "" then .ok (defaultSec, 0)
    else
      let whole := value.toList.takeWhile (fun c => c != '.')
      let rest := value.toList.dropWhile (fun c => c != '.')
      match parseInt64 whole with
      | .error reason => .error (numError whole reason)
      | .ok sec =>
        match rest with
        | [] => .ok (sec, 0)
        | _ :: fraction =>
          match parseInt64 fraction with
          | .error reason => .error (numError fraction reason)
          | .ok n =>
            if fraction.length ≤ 9 then .ok (sec, n * 10 ^ (9 - fraction.length))
            else .ok (sec, Int.tdiv n (10 ^ (fraction.length - 9)))

/-- The entries of the spec's example scenario. -/
def entryM1 : LogEntry := ⟨"a", 100, "m1"⟩

/-- The second entry of the spec's example scenario. -/
def entryM2 : LogEntry := ⟨"a", 200, "m2"⟩

/-- A source that answers the first call with `[entryM1]` and every later call with
`[entryM1, entryM2]`. -/
def sampleSource : LogSource := fun k _ =>
  if k = 0 then .ok [entryM1] else .ok [entryM1, entryM2]

/-- A source whose first two calls succeed and whose third call fails. -/
def failingSource : LogSource := fun k _ =>
  if k = 0 then .ok [entryM1]
  else if k = 1 then .ok [entryM1, entryM2]
  else .error (GoError.external "throttled")

/-- A query with no lower bound and no resource filter. -/
def sampleQuery : LogQuery := ⟨none, none⟩

/-! ## The range loop over one batch -/

theorem showBatch_nil (st : TailState) : showBatch st [] = st := rfl

theorem showBatch_cons (st : TailState) (e : LogEntry) (logs : List LogEntry) :
    showBatch st (e :: logs) = showBatch (showEntry st e) logs := rfl

theorem showBatch_append (st : TailState) (xs ys : List LogEntry) :
    showBatch st (xs ++ ys) = showBatch (showBatch st xs) ys := by
  simp [showBatch, List.foldl_append]

theorem showEntry_queries (st : TailState) (e : LogEntry) :
    (showEntry st e).queries = st.queries := by
  unfold showEntry
  split <;> rfl

theorem showBatch_queries (logs : List LogEntry) (st : TailState) :
    (showBatch st logs).queries = st.queries := by
  induction logs generalizing st with
  | nil => rfl
  | cons e rest ih => rw [showBatch_cons, ih, showEntry_queries]

/-- The map and the printed lines after a batch do not depend on the queries made. -/
theorem showBatch_congr (logs : List LogEntry) (st st1 : TailState)
    (hs : st.shown = st1.shown) (hp : st.printed = st1.printed) :
    (showBatch st logs).shown = (showBatch st1 logs).shown ∧
      (showBatch st logs).printed = (showBatch st1 logs).printed := by
  induction logs generalizing st st1 with
  | nil => exact ⟨hs, hp⟩
  | cons e rest ih =>
    rw [showBatch_cons, showBatch_cons]
    apply ih
    · unfold showEntry
      rw [hs]
      split <;> simp [hs]
    · unfold showEntry
      rw [hs]
      split <;> simp [hp]

theorem showBatch_shown_mem (logs : List LogEntry) (st : TailState) (x : LogEntry) :
    x ∈ (showBatch st logs).shown ↔ x ∈ st.shown ∨ x ∈ logs := by
  induction logs generalizing st with
  | nil => simp [showBatch_nil]
  | cons e rest ih =>
    rw [showBatch_cons, ih]
    unfold showEntry
    split
    · rename_i h
      constructor
      · rintro (h1 | h1)
        · exact Or.inl h1
        · exact Or.inr (List.mem_cons_of_mem _ h1)
      · rintro (h1 | h1)
        · exact Or.inl h1
        · rcases List.mem_cons.mp h1 with h2 | h2
          · exact Or.inl (h2 ▸ h)
          · exact Or.inr h2
    · simp only [List.mem_cons]
      tauto

theorem filter_firstOccurrences_step (shown : List LogEntry) (e : LogEntry)
    (xs : List LogEntry) :
    (xs.filter (fun x => decide (x ≠ e))).filter (fun x => decide (x ∉ shown))
      = xs.filter (fun x => decide (x ∉ e :: shown)) := by
  rw [List.filter_filter]
  apply List.filter_congr
  intro x _
  simp only [List.mem_cons, not_or, Bool.decide_and, Bool.and_comm]

/-- What one batch prints: its first occurrences, less the values already in the map. -/
theorem showBatch_printed (logs : List LogEntry) (st : TailState) :
    (showBatch st logs).printed
      = st.printed ++ (firstOccurrences logs).filter (fun x => decide (x ∉ st.shown)) := by
  induction logs generalizing st with
  | nil => simp [showBatch_nil, firstOccurrences]
  | cons e rest ih =>
    rw [showBatch_cons, ih]
    unfold showEntry
    split
    · rename_i h
      simp only [firstOccurrences]
      rw [List.filter_cons_of_neg (by simpa using h), List.filter_filter]
      congr 1
      apply List.filter_congr
      intro x _
      by_cases hx : x = e
      · subst hx; simp [h]
      · simp [hx]
    · rename_i h
      simp only [firstOccurrences]
      rw [List.filter_cons_of_pos (by simpa using h), filter_firstOccurrences_step]
      simp

theorem firstOccurrences_mem (logs : List LogEntry) (x : LogEntry) :
    x ∈ firstOccurrences logs ↔ x ∈ logs := by
  induction logs with
  | nil => simp [firstOccurrences]
  | cons e rest ih =>
    simp only [firstOccurrences, List.mem_cons, List.mem_filter, ih, decide_eq_true_eq]
    by_cases hx : x = e <;> simp [hx]

theorem firstOccurrences_nodup (logs : List LogEntry) : (firstOccurrences logs).Nodup := by
  induction logs with
  | nil => simp [firstOccurrences]
  | cons e rest ih =>
    simp only [firstOccurrences, List.nodup_cons, List.mem_filter, decide_eq_true_eq]
    exact ⟨fun h => h.2 rfl, ih.filter _⟩

/-- Processing the batches one after the other is processing their concatenation. -/
theorem foldl_showBatch (bs : List (List LogEntry)) (st : TailState) :
    bs.foldl showBatch st = showBatch st bs.flatten := by
  induction bs generalizing st with
  | nil => rfl
  | cons b rest ih => rw [List.foldl_cons, ih, List.flatten_cons, showBatch_append]

/-! ## The loop over successive polls -/

theorem tailState_eq (a b : TailState) (h1 : a.shown = b.shown)
    (h2 : a.printed = b.printed) (h3 : a.queries = b.queries) : a = b := by
  cases a
  cases b
  simp_all

/-- In follow mode, while the polls succeed the loop goes on: after the batches `bs` the
map and the printed lines are those of the concatenated batches, and one query was made for
each batch. -/
theorem tailLoop_follow_ok (s : LogSource) (q : LogQuery) (m : Nat)
    (bs : List (List LogEntry)) (st : TailState)
    (hok : ∀ i b, bs[i]? = some b → s (st.queries.length + i) q = .ok b) :
    tailLoop true s q (bs.length + m) st
      = tailLoop true s q m
          ⟨(showBatch st bs.flatten).shown, (showBatch st bs.flatten).printed,
            st.queries ++ List.replicate bs.length q⟩ := by
  induction bs generalizing st with
  | nil => simp [showBatch_nil]
  | cons b rest ih =>
    have h0 : s st.queries.length q = .ok b := by
      have := hok 0 b (by simp)
      simpa using this
    have hlen : (b :: rest).length + m = (rest.length + m) + 1 := by
      simp only [List.length_cons]; omega
    rw [hlen, tailLoop, h0]
    simp only [Bool.not_true, Bool.false_eq_true, if_false]
    have hq : (showBatch ⟨st.shown, st.printed, st.queries ++ [q]⟩ b).queries
        = st.queries ++ [q] := showBatch_queries _ _
    have hc := showBatch_congr b ⟨st.shown, st.printed, st.queries ++ [q]⟩ st rfl rfl
    rw [ih]
    · have hc2 := showBatch_congr rest.flatten
        (showBatch ⟨st.shown, st.printed, st.queries ++ [q]⟩ b) (showBatch st b) hc.1 hc.2
      rw [List.flatten_cons, showBatch_append, hc2.1, hc2.2, hq]
      simp [List.replicate_succ]
    · intro i c hi
      rw [hq]
      have := hok (i + 1) c (by simpa using hi)
      simpa [Nat.add_assoc, Nat.add_comm 1 i] using this

/-- The state after the polls that returned the batches `bs`, in follow mode or, for at
most one batch, in one-shot mode. -/
theorem tailLoop_state_after (follow : Bool) (s : LogSource) (q : LogQuery)
    (bs : List (List LogEntry))
    (hok : ∀ i b, bs[i]? = some b → s i q = .ok b)
    (hmode : follow = true ∨ bs.length ≤ 1) :
    (tailLoop follow s q bs.length TailState.init).2
      = ⟨(showBatch TailState.init bs.flatten).shown,
          (showBatch TailState.init bs.flatten).printed, List.replicate bs.length q⟩ := by
  cases follow with
  | true =>
    have h := tailLoop_follow_ok s q 0 bs TailState.init
      (by intro i b hi; simpa [TailState.init] using hok i b hi)
    rw [Nat.add_zero] at h
    rw [h]
    simp [tailLoop, TailState.init]
  | false =>
    have hlen : bs.length ≤ 1 := by
      rcases hmode with h | h
      · cases h
      · exact h
    match bs, hok, hlen with
    | [], _, _ => simp [tailLoop, TailState.init, showBatch_nil]
    | [b], hok, _ =>
      have h0 : s 0 q = .ok b := hok 0 b (by simp)
      have hq : (showBatch ⟨[], [], [q]⟩ b).queries = [q] := showBatch_queries _ _
      have hc := showBatch_congr b ⟨[], [], [q]⟩ ⟨[], [], []⟩ rfl rfl
      simp only [List.length_singleton, tailLoop, TailState.init, List.length_nil, h0,
        List.nil_append, Bool.not_false, if_true, List.flatten_cons, List.flatten_nil,
        List.append_nil, List.replicate_one]
      exact tailState_eq _ _ hc.1 hc.2 hq
    | _ :: _ :: _, _, h => simp at h

/-- Whatever the source answers, the map and the printed lines are those of one pass of
the range loop over some list of entries (the batches received so far, concatenated). -/
theorem tailLoop_reaches (follow : Bool) (s : LogSource) (q : LogQuery) (fuel : Nat)
    (st : TailState) :
    ∃ logs, (tailLoop follow s q fuel st).2.shown = (showBatch st logs).shown ∧
      (tailLoop follow s q fuel st).2.printed = (showBatch st logs).printed := by
  induction fuel generalizing st with
  | zero => exact ⟨[], rfl, rfl⟩
  | succ n ih =>
    rw [tailLoop]
    cases hs : s st.queries.length q with
    | error err => exact ⟨[], rfl, rfl⟩
    | ok logs0 =>
      have hc := showBatch_congr logs0 ⟨st.shown, st.printed, st.queries ++ [q]⟩ st rfl rfl
      cases follow with
      | false => exact ⟨logs0, hc.1, hc.2⟩
      | true =>
        simp only [Bool.not_true, Bool.false_eq_true, if_false]
        obtain ⟨logs1, h1, h2⟩ := ih (showBatch ⟨st.shown, st.printed, st.queries ++ [q]⟩ logs0)
        have hc2 := showBatch_congr logs1
          (showBatch ⟨st.shown, st.printed, st.queries ++ [q]⟩ logs0) (showBatch st logs0)
          hc.1 hc.2
        refine ⟨logs0 ++ logs1, ?_, ?_⟩
        · rw [h1, showBatch_append, hc2.1]
        · rw [h2, showBatch_append, hc2.2]

/-- In follow mode the loop never comes back with a nil error. -/
theorem tailLoop_follow_not_success (s : LogSource) (q : LogQuery) (fuel : Nat)
    (st : TailState) : (tailLoop true s q fuel st).1 ≠ Outcome.returned none := by
  induction fuel generalizing st with
  | zero => simp [tailLoop]
  | succ n ih =>
    rw [tailLoop]
    cases hs : s st.queries.length q with
    | error err => simp
    | ok logs0 =>
      simp only [Bool.not_true, Bool.false_eq_true, if_false]
      exact ih _

/-- In follow mode, while the polls succeed the loop is still going and has made one
query per iteration. -/
theorem tailLoop_follow_running (s : LogSource) (q : LogQuery) (fuel : Nat)
    (st : TailState) (hok : ∀ i, i < fuel → ∃ b, s (st.queries.length + i) q = .ok b) :
    (tailLoop true s q fuel st).1 = Outcome.running ∧
      (tailLoop true s q fuel st).2.queries.length = st.queries.length + fuel := by
  induction fuel generalizing st with
  | zero => simp [tailLoop]
  | succ n ih =>
    obtain ⟨b, hb⟩ := hok 0 (Nat.succ_pos n)
    rw [Nat.add_zero] at hb
    rw [tailLoop, hb]
    simp only [Bool.not_true, Bool.false_eq_true, if_false]
    have hq : (showBatch ⟨st.shown, st.printed, st.queries ++ [q]⟩ b).queries
        = st.queries ++ [q] := showBatch_queries _ _
    have := ih (showBatch ⟨st.shown, st.printed, st.queries ++ [q]⟩ b) (by
      intro i hi
      rw [hq]
      obtain ⟨c, hc⟩ := hok (i + 1) (by omega)
      exact ⟨c, by simpa [Nat.add_assoc, Nat.add_comm 1 i] using hc⟩)
    rw [hq] at this
    refine ⟨this.1, ?_⟩
    rw [this.2]
    simp [Nat.add_assoc, Nat.add_comm 1 n]

/-- In follow mode there are two ways for the loop to stand after `fuel` iterations: all
the polls so far succeeded and it is still going, or some poll failed and it returned that
poll's error wrapped, having made no query after it. -/
theorem tailLoop_follow_outcome (s : LogSource) (q : LogQuery) (fuel : Nat)
    (st : TailState) :
    ((tailLoop true s q fuel st).1 = Outcome.running ∧
        (tailLoop true s q fuel st).2.queries.length = st.queries.length + fuel ∧
        ∀ i, i < fuel → ∃ b, s (st.queries.length + i) q = .ok b) ∨
      ∃ k c, k < fuel ∧ (∀ i, i < k → ∃ b, s (st.queries.length + i) q = .ok b) ∧
        s (st.queries.length + k) q = .error c ∧
        (tailLoop true s q fuel st).1
          = Outcome.returned (some (GoError.wrapf c "failed to get logs")) ∧
        (tailLoop true s q fuel st).2.queries.length = st.queries.length + k + 1 := by
  induction fuel generalizing st with
  | zero =>
    left
    exact ⟨rfl, rfl, fun i hi => absurd hi (Nat.not_lt_zero i)⟩
  | succ n ih =>
    rw [tailLoop]
    cases hs : s st.queries.length q with
    | error err =>
      right
      exact ⟨0, err, Nat.succ_pos n, fun i hi => absurd hi (Nat.not_lt_zero i), hs, rfl,
        by simp⟩
    | ok logs0 =>
      simp only [Bool.not_true, Bool.false_eq_true, if_false]
      have hq : (showBatch ⟨st.shown, st.printed, st.queries ++ [q]⟩ logs0).queries
          = st.queries ++ [q] := showBatch_queries _ _
      have hshift : ∀ i, st.queries.length + 1 + i = st.queries.length + (i + 1) := by
        intro i; omega
      rcases ih (showBatch ⟨st.shown, st.printed, st.queries ++ [q]⟩ logs0) with
        ⟨h1, h2, h3⟩ | ⟨k, c, hk, h3, h4, h5, h6⟩
      · left
        rw [hq, List.length_append, List.length_singleton] at h2 h3
        refine ⟨h1, by rw [h2]; omega, ?_⟩
        intro i hi
        match i, hi with
        | 0, _ => exact ⟨logs0, hs⟩
        | j + 1, hj =>
          obtain ⟨b, hb⟩ := h3 j (Nat.lt_of_succ_lt_succ hj)
          exact ⟨b, (hshift j) ▸ hb⟩
      · right
        rw [hq, List.length_append, List.length_singleton] at h3 h4 h6
        refine ⟨k + 1, c, Nat.succ_lt_succ hk, ?_, (hshift k) ▸ h4, h5, by rw [h6]; omega⟩
        intro i hi
        match i, hi with
        | 0, _ => exact ⟨logs0, hs⟩
        | j + 1, hj =>
          obtain ⟨b, hb⟩ := h3 j (Nat.lt_of_succ_lt_succ hj)
          exact ⟨b, (hshift j) ▸ hb⟩

/-- The loop never forgets a query it made. -/
theorem tailLoop_queries_mono (follow : Bool) (s : LogSource) (q : LogQuery) (fuel : Nat)
    (st : TailState) :
    st.queries.length ≤ (tailLoop follow s q fuel st).2.queries.length := by
  induction fuel generalizing st with
  | zero => simp [tailLoop]
  | succ n ih =>
    rw [tailLoop]
    cases hs : s st.queries.length q with
    | error err => simp
    | ok logs0 =>
      have hq : (showBatch ⟨st.shown, st.printed, st.queries ++ [q]⟩ logs0).queries
          = st.queries ++ [q] := showBatch_queries _ _
      cases follow with
      | false => simp [hq]
      | true =>
        simp only [Bool.not_true, Bool.false_eq_true, if_false]
        have := ih (showBatch ⟨st.shown, st.printed, st.queries ++ [q]⟩ logs0)
        rw [hq] at this
        simp only [List.length_append, List.length_singleton] at this
        omega

/-- The first iteration of the loop makes a query. -/
theorem tailLoop_first_query (follow : Bool) (s : LogSource) (q : LogQuery) (fuel : Nat)
    (st : TailState) :
    st.queries.length + 1 ≤ (tailLoop follow s q (fuel + 1) st).2.queries.length := by
  rw [tailLoop]
  cases hs : s st.queries.length q with
  | error err => simp
  | ok logs0 =>
    have hq : (showBatch ⟨st.shown, st.printed, st.queries ++ [q]⟩ logs0).queries
        = st.queries ++ [q] := showBatch_queries _ _
    cases follow with
    | false => simp [hq]
    | true =>
      simp only [Bool.not_true, Bool.false_eq_true, if_false]
      have := tailLoop_queries_mono true s q fuel
        (showBatch ⟨st.shown, st.printed, st.queries ++ [q]⟩ logs0)
      rw [hq] at this
      simpa using this

/-! ## Sample inputs -/

theorem sampleSource_batches (i : Nat) (b : List LogEntry)
    (h : [[entryM1], [entryM1, entryM2]][i]? = some b) :
    sampleSource i sampleQuery = .ok b := by
  match i, h with
  | 0, h => simp at h; subst h; rfl
  | 1, h => simp at h; subst h; rfl
  | _ + 2, h => simp at h

theorem failingSource_batches (i : Nat) (b : List LogEntry)
    (h : [[entryM1], [entryM1, entryM2]][i]? = some b) :
    failingSource i sampleQuery = .ok b := by
  match i, h with
  | 0, h => simp at h; subst h; rfl
  | 1, h => simp at h; subst h; rfl
  | _ + 2, h => simp at h

theorem getElem?_append_singleton (bs : List (List LogEntry)) (b c : List LogEntry)
    (i : Nat) (h : (bs ++ [b])[i]? = some c) :
    bs[i]? = some c ∨ (i = bs.length ∧ c = b) := by
  by_cases hi : i < bs.length
  · rw [List.getElem?_append_left hi] at h
    exact Or.inl h
  · rw [List.getElem?_append_right (by omega)] at h
    right
    match hj : i - bs.length, h with
    | 0, h =>
      simp at h
      exact ⟨by omega, h.symm⟩
    | _ + 1, h => simp at h

/-! ## The claims -/

/-- C1. Whatever the source answers to the successive polls (batches in any order, with any
overlap and repetition, or errors), in follow mode or not and however long the loop has
run, every LogEntry value occurs at most once among the entries printed by one invocation;
this holds for the loop and for the whole run function. -/
theorem printed_at_most_once (follow : Bool) (s : LogSource) (q : LogQuery) (fuel : Nat)
    (e : LogEntry) :
    (tailLoop follow s q fuel TailState.init).2.printed.count e ≤ 1 ∧
      ∀ (mobytime : Mobytime) (stack : Except GoError LogSource) (since resource : String)
        (now : Time),
        (runLogs mobytime stack since now resource follow fuel).2.printed.count e ≤ 1 := by
  have key : ∀ (s : LogSource) (q : LogQuery),
      (tailLoop follow s q fuel TailState.init).2.printed.count e ≤ 1 := by
    intro s q
    obtain ⟨logs, _, h2⟩ := tailLoop_reaches follow s q fuel TailState.init
    rw [h2, showBatch_printed]
    exact List.nodup_iff_count_le_one.mp
      (by simpa [TailState.init] using firstOccurrences_nodup logs) e
  refine ⟨key s q, ?_⟩
  intro mobytime stack since resource now
  unfold runLogs
  cases stack with
  | error err => simp [TailState.init]
  | ok s1 =>
    cases parseSince mobytime since now with
    | error err => simp [TailState.init]
    | ok startTime =>
      cases startTime with
      | none => simp [TailState.init]
      | some t => exact key _ _

/-- C2. If the polls before poll `k` returned the batches `bs`, poll `k` returns the batch
`b`, and the entry `e` is in `b` but in none of `bs`, then `e` is not among the lines
printed before poll `k` and is among those printed while `b` is processed. Nothing is
assumed of the timestamp of `e`. (Polls after the first exist in follow mode only.) -/
theorem new_entry_is_printed (follow : Bool) (s : LogSource) (q : LogQuery)
    (bs : List (List LogEntry)) (b : List LogEntry) (e : LogEntry)
    (hprev : ∀ i c, bs[i]? = some c → s i q = .ok c)
    (hk : s bs.length q = .ok b)
    (hmode : follow = true ∨ bs = [])
    (he : e ∈ b) (hnew : ∀ c ∈ bs, e ∉ c) :
    e ∉ (tailLoop follow s q bs.length TailState.init).2.printed ∧
      ∃ written, e ∈ written ∧
        (tailLoop follow s q (bs.length + 1) TailState.init).2.printed
          = (tailLoop follow s q bs.length TailState.init).2.printed ++ written := by
  have hflat : e ∉ bs.flatten := by
    intro h
    obtain ⟨c, hc, hec⟩ := List.mem_flatten.mp h
    exact hnew c hc hec
  have hm1 : follow = true ∨ bs.length ≤ 1 := by
    rcases hmode with h | h
    · exact Or.inl h
    · right; simp [h]
  have hm2 : follow = true ∨ (bs ++ [b]).length ≤ 1 := by
    rcases hmode with h | h
    · exact Or.inl h
    · right; simp [h]
  have hafter := tailLoop_state_after follow s q (bs ++ [b]) (by
    intro i c hi
    rcases getElem?_append_singleton bs b c i hi with h | ⟨h1, h2⟩
    · exact hprev i c h
    · rw [h1, h2]; exact hk) hm2
  rw [List.length_append, List.length_singleton] at hafter
  rw [hafter, tailLoop_state_after follow s q bs hprev hm1]
  constructor
  · intro h
    rw [showBatch_printed] at h
    simp only [TailState.init, List.nil_append, List.mem_filter] at h
    exact hflat ((firstOccurrences_mem _ _).mp h.1)
  · refine ⟨(firstOccurrences b).filter
      (fun x => decide (x ∉ (showBatch TailState.init bs.flatten).shown)), ?_, ?_⟩
    · simp only [List.mem_filter, decide_eq_true_eq]
      refine ⟨(firstOccurrences_mem _ _).mpr he, ?_⟩
      rw [showBatch_shown_mem]
      simp [TailState.init, hflat]
    · simp only [List.flatten_append, List.flatten_cons, List.flatten_nil, List.append_nil]
      rw [showBatch_append, showBatch_printed b (showBatch TailState.init bs.flatten)]

/-- C2, at the spec's example: `entryM2` first appears in the second poll. -/
theorem new_entry_is_printed_witness :
    entryM2 ∉ (tailLoop true sampleSource sampleQuery 1 TailState.init).2.printed ∧
      ∃ written, entryM2 ∈ written ∧
        (tailLoop true sampleSource sampleQuery 2 TailState.init).2.printed
          = (tailLoop true sampleSource sampleQuery 1 TailState.init).2.printed ++ written :=
  new_entry_is_printed true sampleSource sampleQuery [[entryM1]] [entryM1, entryM2] entryM2
    (by
      intro i c h
      match i, h with
      | 0, h => simp at h; subst h; rfl
      | _ + 1, h => simp at h)
    rfl (Or.inl rfl) (by decide) (by decide)

/-- C3. With follow = false, if the first query succeeds with the batch `b`, then for every
bound of at least one iteration the loop has returned a nil error after exactly one query,
with the map and the printed lines of that one batch: the answers of the source to later
calls play no role. -/
theorem oneShot_single_query (s : LogSource) (q : LogQuery) (b : List LogEntry)
    (fuel : Nat) (h : s 0 q = .ok b) :
    tailLoop false s q (fuel + 1) TailState.init
      = (Outcome.returned none,
          ⟨(showBatch TailState.init b).shown, (showBatch TailState.init b).printed, [q]⟩) := by
  have hh : s ([] : List LogQuery).length q = .ok b := h
  have hc := showBatch_congr b ⟨[], [], [q]⟩ TailState.init rfl rfl
  have hq : (showBatch ⟨[], [], [q]⟩ b).queries = [q] := showBatch_queries _ _
  simp only [tailLoop, TailState.init, hh, List.nil_append, Bool.not_false, if_true]
  exact congrArg _ (tailState_eq _ _ hc.1 hc.2 hq)

/-- C3, on a source that would return more on a second call. -/
theorem oneShot_single_query_witness :
    tailLoop false sampleSource sampleQuery 3 TailState.init
      = (Outcome.returned none, ⟨[entryM1], [entryM1], [sampleQuery]⟩) :=
  (oneShot_single_query sampleSource sampleQuery [entryM1] 2 rfl).trans (by decide)

/-- C4. If the polls before poll `k` returned the batches `bs` and poll `k` fails with the
cause `c` (in follow mode, or as the first poll in either mode), then for every bound that
lets poll `k` happen the loop has returned `c` wrapped with "failed to get logs", has made
exactly the queries up to poll `k` and none after it, and its map and printed lines are
those of the batches `bs`, which are also those the loop had reached just before poll `k`. -/
theorem failed_poll_ends_invocation (follow : Bool) (s : LogSource) (q : LogQuery)
    (bs : List (List LogEntry)) (c : GoError) (fuel : Nat)
    (hprev : ∀ i b, bs[i]? = some b → s i q = .ok b)
    (hfail : s bs.length q = .error c)
    (hmode : follow = true ∨ bs = []) :
    tailLoop follow s q (bs.length + 1 + fuel) TailState.init
        = (Outcome.returned (some (GoError.wrapf c "failed to get logs")),
            ⟨(bs.foldl showBatch TailState.init).shown,
              (bs.foldl showBatch TailState.init).printed,
              List.replicate (bs.length + 1) q⟩) ∧
      (tailLoop follow s q bs.length TailState.init).2.printed
        = (bs.foldl showBatch TailState.init).printed := by
  have hm1 : follow = true ∨ bs.length ≤ 1 := by
    rcases hmode with h | h
    · exact Or.inl h
    · right; simp [h]
  constructor
  · rcases hmode with h | h
    · subst h
      rw [Nat.add_assoc, tailLoop_follow_ok s q (1 + fuel) bs TailState.init
        (by intro i b hi; simpa [TailState.init] using hprev i b hi), Nat.add_comm 1 fuel,
        tailLoop]
      simp only [TailState.init, List.nil_append, List.length_replicate, hfail,
        foldl_showBatch]
      simp [List.replicate_succ']
    · subst h
      have hh : s 0 q = .error c := hfail
      simp only [List.length_nil, Nat.zero_add, Nat.add_comm 1 fuel, tailLoop,
        TailState.init, hh, List.nil_append, List.foldl_nil, List.replicate_one]
  · rw [tailLoop_state_after follow s q bs hprev hm1, foldl_showBatch]

/-- C4, on a source whose third call fails, in follow mode. -/
theorem failed_poll_ends_invocation_witness :
    tailLoop true failingSource sampleQuery 7 TailState.init
      = (Outcome.returned
          (some (GoError.wrapf (GoError.external "throttled") "failed to get logs")),
          ⟨[entryM2, entryM1], [entryM1, entryM2], [sampleQuery, sampleQuery, sampleQuery]⟩) :=
  (failed_poll_ends_invocation true failingSource sampleQuery
    [[entryM1], [entryM1, entryM2]] (GoError.external "throttled") 4
    failingSource_batches rfl (Or.inl rfl)).1.trans (by decide)

/-- C5. When the timestamp library resolves `since` against the reference instant to the
pair (seconds, nanoseconds), `parseSince` returns the nil start time without error exactly
when both are 0, and otherwise returns `time.Unix(seconds, nanoseconds)` without error. -/
theorem parseSince_zero_sentinel (mobytime : Mobytime) (since : String) (reference : Time)
    (startTimestamp : String) (sec ns : Int)
    (h1 : mobytime.GetTimestamp since reference = .ok startTimestamp)
    (h2 : mobytime.ParseTimestamps startTimestamp 0 = .ok (sec, ns)) :
    (parseSince mobytime since reference = .ok none ↔ sec = 0 ∧ ns = 0) ∧
      (¬ (sec = 0 ∧ ns = 0) →
        parseSince mobytime since reference = .ok (some (timeUnix sec ns))) := by
  unfold parseSince
  rw [h1]
  simp only [h2]
  by_cases h : sec = 0 ∧ ns = 0
  · simp [h]
  · simp [h]

/-- C5, at a Unix timestamp other than 0 and at `"0"`. -/
theorem parseSince_zero_sentinel_witness :
    parseSince sampleMobytime "1500000000" ⟨1510000000, 0⟩
        = .ok (some (timeUnix 1500000000 0)) ∧
      parseSince sampleMobytime "0" ⟨1510000000, 0⟩ = .ok none :=
  ⟨(parseSince_zero_sentinel sampleMobytime "1500000000" ⟨1510000000, 0⟩ "1500000000"
      1500000000 0 rfl rfl).2 (by decide),
    (parseSince_zero_sentinel sampleMobytime "0" ⟨1510000000, 0⟩ "0" 0 0
      rfl rfl).1.mpr ⟨rfl, rfl⟩⟩

/-- C6 as stated fails: on the input `"1.x"`, rejected by the library with a cause that
names only the fragment `x`, the run function returns that cause wrapped with a fixed
message, and the text of the returned error does not contain the input string. -/
theorem parse_failure_omits_input :
    runLogs sampleMobytime (.ok sampleSource) "1.x" ⟨1510000000, 0⟩ "" false 1
        = (Outcome.returned (some (GoError.wrapf
            (GoError.external "strconv.ParseInt: parsing \"x\": invalid syntax")
            "failed to parse argument to '--since' as duration or timestamp")),
          TailState.init) ∧
      (GoError.wrapf
        (GoError.external "strconv.ParseInt: parsing \"x\": invalid syntax")
        "failed to parse argument to '--since' as duration or timestamp").mentions "1.x"
        = false := by
  decide

/-- C6, amended. When the timestamp library rejects `since` with the cause `c`, at either
of its two steps, `parseSince` returns no start time and the error `c` itself, and the run
function returns `c` wrapped with the fixed message "failed to parse argument to '--since'
as duration or timestamp", having made no query and printed no entry. The code adds
nothing else to the error: the input string is in it only if the cause carries it. -/
theorem parse_failure_wraps_cause (mobytime : Mobytime) (since : String) (now : Time)
    (c : GoError) (s : LogSource) (resource : String) (follow : Bool) (fuel : Nat)
    (h : mobytime.GetTimestamp since now = .error c ∨
      ∃ startTimestamp, mobytime.GetTimestamp since now = .ok startTimestamp ∧
        mobytime.ParseTimestamps startTimestamp 0 = .error c) :
    parseSince mobytime since now = .error c ∧
      runLogs mobytime (.ok s) since now resource follow fuel
        = (Outcome.returned (some (GoError.wrapf c
            "failed to parse argument to '--since' as duration or timestamp")),
          TailState.init) := by
  have hp : parseSince mobytime since now = .error c := by
    unfold parseSince
    rcases h with h | ⟨ts, h1, h2⟩
    · rw [h]
    · rw [h1]
      simp only [h2]
  exact ⟨hp, by simp only [runLogs, hp]⟩

/-- C6, amended, at the input `"not-a-duration"`, which the library rejects with the error
of `time.Parse`. -/
theorem parse_failure_wraps_cause_witness :
    parseSince sampleMobytime "not-a-duration" ⟨1510000000, 0⟩
        = .error (GoError.external
          "parsing time \"not-a-duration\" as \"2006-01-02\": cannot parse \"not-a-duration\" as \"2006\"") ∧
      runLogs sampleMobytime (.ok sampleSource) "not-a-duration" ⟨1510000000, 0⟩ "" true 5
        = (Outcome.returned (some (GoError.wrapf
            (GoError.external
              "parsing time \"not-a-duration\" as \"2006-01-02\": cannot parse \"not-a-duration\" as \"2006\"")
            "failed to parse argument to '--since' as duration or timestamp")),
          TailState.init) :=
  parse_failure_wraps_cause sampleMobytime "not-a-duration" ⟨1510000000, 0⟩
    (GoError.external
      "parsing time \"not-a-duration\" as \"2006-01-02\": cannot parse \"not-a-duration\" as \"2006\"")
    sampleSource "" true 5 (Or.inl rfl)

/-- C7 as stated fails: in the batch `[entryM1, entryM1]`, polled with an empty map, the
second occurrence is of a value that was not in the map when the poll was made, and
handling it prints nothing: the printed lines after two entries are those after one, and
the one-shot run on that batch prints one line, not two. -/
theorem repeated_occurrence_not_printed :
    [entryM1, entryM1][1]? = some entryM1 ∧
      entryM1 ∉ TailState.init.shown ∧
      (showBatch TailState.init ([entryM1, entryM1].take 2)).printed
        = (showBatch TailState.init ([entryM1, entryM1].take 1)).printed ∧
      (showBatch TailState.init ([entryM1, entryM1].take 2)).printed
        ≠ (showBatch TailState.init ([entryM1, entryM1].take 1)).printed ++ [entryM1] ∧
      (tailLoop false (fun _ _ => .ok [entryM1, entryM1]) sampleQuery 1
        TailState.init).2.printed = [entryM1] := by
  decide

/-- C7, amended. Take a batch `logs` polled when the map was `st.shown`, and its
occurrence at position `i`, an entry `e`. The range loop reaches that occurrence in the
state it has after the first `i` entries. Handling the occurrence appends exactly the line
of `e` to the output if and only if `e` was not in the map when the poll was made and `e`
does not occur earlier in the same batch; in that case `e` enters the map. Otherwise the
occurrence leaves the output and the map as they were. -/
theorem occurrence_written_iff (st : TailState) (logs : List LogEntry) (i : Nat)
    (e : LogEntry) (h : logs[i]? = some e) :
    ((showBatch st (logs.take (i + 1))).printed
        = (showBatch st (logs.take i)).printed ++ [e]
      ↔ e ∉ st.shown ∧ e ∉ logs.take i) ∧
    (e ∉ st.shown ∧ e ∉ logs.take i →
      (showBatch st (logs.take (i + 1))).shown = e :: (showBatch st (logs.take i)).shown) ∧
    (¬ (e ∉ st.shown ∧ e ∉ logs.take i) →
      (showBatch st (logs.take (i + 1))).printed = (showBatch st (logs.take i)).printed ∧
      (showBatch st (logs.take (i + 1))).shown = (showBatch st (logs.take i)).shown) := by
  have htake : logs.take (i + 1) = logs.take i ++ [e] := by
    rw [List.take_succ, h]
    rfl
  have hmem := showBatch_shown_mem (logs.take i) st e
  rw [htake, showBatch_append, showBatch_cons, showBatch_nil]
  unfold showEntry
  by_cases hm : e ∈ (showBatch st (logs.take i)).shown
  · have hcond : ¬ (e ∉ st.shown ∧ e ∉ logs.take i) := by
      have := hmem.mp hm
      tauto
    rw [if_pos hm]
    refine ⟨⟨fun hp => ?_, fun hc => absurd hc hcond⟩, fun hc => absurd hc hcond,
      fun _ => ⟨rfl, rfl⟩⟩
    have hlen := congrArg List.length hp
    simp at hlen
  · have hcond : e ∉ st.shown ∧ e ∉ logs.take i :=
      ⟨fun h1 => hm (hmem.mpr (Or.inl h1)), fun h1 => hm (hmem.mpr (Or.inr h1))⟩
    rw [if_neg hm]
    exact ⟨⟨fun _ => hcond, fun _ => rfl⟩, fun _ => rfl, fun hc => absurd hcond hc⟩

/-- C7, amended, on the batch `[entryM2, entryM1, entryM2]` polled when the map held
`entryM1`: the first occurrence of `entryM2` is printed, the occurrence of `entryM1` is not
(it was in the map), and the second occurrence of `entryM2` is not (it occurs earlier in
the batch). -/
theorem occurrence_written_iff_witness :
    ((showBatch ⟨[entryM1], [entryM1], []⟩ ([entryM2, entryM1, entryM2].take 1)).printed
        = (showBatch ⟨[entryM1], [entryM1], []⟩ ([entryM2, entryM1, entryM2].take 0)).printed
          ++ [entryM2]) ∧
      ((showBatch ⟨[entryM1], [entryM1], []⟩ ([entryM2, entryM1, entryM2].take 2)).printed
        = (showBatch ⟨[entryM1], [entryM1], []⟩ ([entryM2, entryM1, entryM2].take 1)).printed) ∧
      ((showBatch ⟨[entryM1], [entryM1], []⟩ ([entryM2, entryM1, entryM2].take 3)).printed
        = (showBatch ⟨[entryM1], [entryM1], []⟩ ([entryM2, entryM1, entryM2].take 2)).printed) ∧
      (showBatch ⟨[entryM1], [entryM1], []⟩ [entryM2, entryM1, entryM2]).printed
        = [entryM1, entryM2] :=
  ⟨(occurrence_written_iff ⟨[entryM1], [entryM1], []⟩ [entryM2, entryM1, entryM2] 0 entryM2
      rfl).1.mpr (by decide),
    ((occurrence_written_iff ⟨[entryM1], [entryM1], []⟩ [entryM2, entryM1, entryM2] 1 entryM1
      rfl).2.2 (by decide)).1,
    ((occurrence_written_iff ⟨[entryM1], [entryM1], []⟩ [entryM2, entryM1, entryM2] 2 entryM2
      rfl).2.2 (by decide)).1,
    (((occurrence_written_iff ⟨[entryM1], [entryM1], []⟩ [entryM2, entryM1, entryM2] 2 entryM2
      rfl).2.2 (by decide)).1.trans
      (((occurrence_written_iff ⟨[entryM1], [entryM1], []⟩ [entryM2, entryM1, entryM2] 1
        entryM1 rfl).2.2 (by decide)).1.trans
        ((occurrence_written_iff ⟨[entryM1], [entryM1], []⟩ [entryM2, entryM1, entryM2] 0
          entryM2 rfl).1.mpr (by decide))))⟩

/-- C8. If the polls returned the batches `bs` (in follow mode, or a single batch in
one-shot mode), the printed entries are, in order, the concatenation of the batches with
every occurrence of a value other than its first removed, the map holds exactly the values
that occur in some batch, and one query was made per batch. -/
theorem printed_refines_firstOccurrences (follow : Bool) (s : LogSource) (q : LogQuery)
    (bs : List (List LogEntry))
    (hok : ∀ i b, bs[i]? = some b → s i q = .ok b)
    (hmode : follow = true ∨ bs.length ≤ 1) :
    (tailLoop follow s q bs.length TailState.init).2.printed = firstOccurrences bs.flatten ∧
      (∀ e, e ∈ (tailLoop follow s q bs.length TailState.init).2.shown ↔ ∃ b ∈ bs, e ∈ b) ∧
      (tailLoop follow s q bs.length TailState.init).2.queries.length = bs.length := by
  rw [tailLoop_state_after follow s q bs hok hmode]
  refine ⟨?_, ?_, ?_⟩
  · rw [showBatch_printed]
    simp [TailState.init]
  · intro e
    simp only [showBatch_shown_mem, TailState.init, List.not_mem_nil, false_or,
      List.mem_flatten]
  · simp

/-- C8, at the spec's example: the batches `[m1]` then `[m1, m2]` give exactly the two
writes `m1`, `m2`. -/
theorem printed_refines_firstOccurrences_witness :
    (tailLoop true sampleSource sampleQuery 2 TailState.init).2.printed
      = [entryM1, entryM2] :=
  (printed_refines_firstOccurrences true sampleSource sampleQuery
    [[entryM1], [entryM1, entryM2]] sampleSource_batches (Or.inl rfl)).1.trans (by decide)

/-- C9 as stated fails: the run function has no cancellation input, so its behaviour is
the same whether or not a signal was raised. In follow mode on a source that always
succeeds, the first iteration makes a query and prints an entry, and for no bound has the
loop returned with a nil error; on a source whose third call fails, the return that ends
the loop is the error return. -/
theorem follow_ignores_cancellation :
    tailLoop true sampleSource sampleQuery 1 TailState.init
        = (Outcome.running, ⟨[entryM1], [entryM1], [sampleQuery]⟩) ∧
      (¬ ∃ fuel, (tailLoop true sampleSource sampleQuery fuel TailState.init).1
        = Outcome.returned none) ∧
      (tailLoop true failingSource sampleQuery 3 TailState.init).1
        = Outcome.returned
            (some (GoError.wrapf (GoError.external "throttled") "failed to get logs")) :=
  ⟨by decide, fun ⟨fuel, h⟩ => tailLoop_follow_not_success _ _ fuel _ h, by decide⟩

/-- C9, amended. In follow mode, whatever the source answers and for every number of
iterations: the loop has not returned a nil error; its first iteration makes a query; and
it stands in one of two ways. Either every poll so far succeeded, and it is still going
with one query made per iteration; or some poll `k` was the first to fail, with a cause
`c`, and it has returned `c` wrapped with "failed to get logs" after exactly the queries up
to poll `k`. So the loop stops only by returning the wrapped error of a failed query, and
it does stop there: whenever poll `k` is the first to fail and the bound lets it happen,
that return is the result. -/
theorem follow_stops_only_on_error (s : LogSource) (q : LogQuery) (fuel : Nat) :
    (tailLoop true s q fuel TailState.init).1 ≠ Outcome.returned none ∧
      1 ≤ (tailLoop true s q (fuel + 1) TailState.init).2.queries.length ∧
      (((tailLoop true s q fuel TailState.init).1 = Outcome.running ∧
          (tailLoop true s q fuel TailState.init).2.queries.length = fuel ∧
          ∀ i, i < fuel → ∃ b, s i q = .ok b) ∨
        ∃ k c, k < fuel ∧ (∀ i, i < k → ∃ b, s i q = .ok b) ∧ s k q = .error c ∧
          (tailLoop true s q fuel TailState.init).1
            = Outcome.returned (some (GoError.wrapf c "failed to get logs")) ∧
          (tailLoop true s q fuel TailState.init).2.queries.length = k + 1) ∧
      ((∀ i, i < fuel → ∃ b, s i q = .ok b) →
        (tailLoop true s q fuel TailState.init).1 = Outcome.running ∧
          (tailLoop true s q fuel TailState.init).2.queries.length = fuel) ∧
      (∀ k c, k < fuel → (∀ i, i < k → ∃ b, s i q = .ok b) → s k q = .error c →
        (tailLoop true s q fuel TailState.init).1
            = Outcome.returned (some (GoError.wrapf c "failed to get logs")) ∧
          (tailLoop true s q fuel TailState.init).2.queries.length = k + 1) := by
  have hout := tailLoop_follow_outcome s q fuel TailState.init
  simp only [TailState.init, List.length_nil, Nat.zero_add] at hout
  refine ⟨tailLoop_follow_not_success s q fuel _, ?_, hout, ?_, ?_⟩
  · simpa [TailState.init] using tailLoop_first_query true s q fuel TailState.init
  · intro hok
    have := tailLoop_follow_running s q fuel TailState.init
      (by intro i hi; simpa [TailState.init] using hok i hi)
    simpa [TailState.init] using this
  · intro k c hk hprev hfail
    rcases hout with ⟨_, _, h3⟩ | ⟨k1, c1, _, h3, h4, h5, h6⟩
    · obtain ⟨b, hb⟩ := h3 k hk
      rw [hfail] at hb
      cases hb
    · rcases Nat.lt_trichotomy k1 k with hlt | heq | hgt
      · obtain ⟨b, hb⟩ := hprev k1 hlt
        rw [h4] at hb
        cases hb
      · subst heq
        rw [hfail] at h4
        cases h4
        exact ⟨h5, h6⟩
      · obtain ⟨b, hb⟩ := h3 k hgt
        rw [hfail] at hb
        cases hb

/-- C9, amended, on a source that always succeeds, after five iterations, and on a source
whose third call fails, after seven. -/
theorem follow_stops_only_on_error_witness :
    ((tailLoop true sampleSource sampleQuery 5 TailState.init).1 = Outcome.running ∧
        (tailLoop true sampleSource sampleQuery 5 TailState.init).2.queries.length = 5) ∧
      ((tailLoop true failingSource sampleQuery 7 TailState.init).1
          = Outcome.returned
              (some (GoError.wrapf (GoError.external "throttled") "failed to get logs")) ∧
        (tailLoop true failingSource sampleQuery 7 TailState.init).2.queries.length = 3) :=
  ⟨(follow_stops_only_on_error sampleSource sampleQuery 5).2.2.2.1 (by
      intro i _
      by_cases h : i = 0
      · exact ⟨[entryM1], by simp [sampleSource, h]⟩
      · exact ⟨[entryM1, entryM2], by simp [sampleSource, h]⟩),
    (follow_stops_only_on_error failingSource sampleQuery 7).2.2.2.2 2
      (GoError.external "throttled") (by decide)
      (by
        intro i hi
        match i, hi with
        | 0, _ => exact ⟨[entryM1], rfl⟩
        | 1, _ => exact ⟨[entryM1, entryM2], rfl⟩
        | _ + 2, h => exact absurd h (by omega))
      rfl⟩

/-- The duration `0s` is resolved to the reference instant: it is the input `0`, not `0s`,
that gives the pair (0, 0) and with it the nil start time. -/
theorem zero_duration_is_reference :
    parseSince sampleMobytime "0s" ⟨1510000000, 0⟩ = .ok (some (timeUnix 1510000000 0)) ∧
      parseSince sampleMobytime "1h" ⟨1510000000, 0⟩ = .ok (some (timeUnix 1509996400 0)) :=
  ⟨rfl, rfl⟩

/-- With a nil start time the run function panics at the banner, before any query. -/
theorem runLogs_nil_start (mobytime : Mobytime) (s : LogSource) (since : String)
    (now : Time) (resource : String) (follow : Bool) (fuel : Nat)
    (h : parseSince mobytime since now = .ok none) :
    runLogs mobytime (.ok s) since now resource follow fuel
      = (Outcome.panicked, TailState.init) := by
  simp only [runLogs, h]

/-- With a start time present the run function enters the loop, and every query carries
that start time and the resource filter. -/
theorem runLogs_present_start (mobytime : Mobytime) (s : LogSource) (since : String)
    (now t : Time) (resource : String) (follow : Bool) (fuel : Nat)
    (h : parseSince mobytime since now = .ok (some t)) :
    runLogs mobytime (.ok s) since now resource follow fuel
      = tailLoop follow s ⟨some t, if resource ≠ "" then some resource else none⟩ fuel
          TailState.init := by
  simp only [runLogs, h]

/-- C10 fails on the code: `"0"` is resolved to the pair (0, 0), `parseSince` returns the
nil start time without error, and the run function panics at the banner, whatever the
stack, the resource filter, the mode and the bound; no query is made. -/
theorem nil_start_time_panics (s : LogSource) (now : Time) (resource : String)
    (follow : Bool) (fuel : Nat) :
    parseSince sampleMobytime "0" now = .ok none ∧
      runLogs sampleMobytime (.ok s) "0" now resource follow fuel
        = (Outcome.panicked, TailState.init) := by
  have hp : parseSince sampleMobytime "0" now = .ok none := rfl
  exact ⟨hp, runLogs_nil_start sampleMobytime s "0" now resource follow fuel hp⟩

end Logs
